import Mathlib

/-!
Verification of the eReader EPUB parser and pagination engine.

JavaScript strings are embedded as `List Char` (`JSStr`); JS `null`/absent
values as `Option`; thrown exceptions as `Except JsError`; machine numbers as
`Nat`/`Int` (all the counting code works on array indices and string lengths,
which are exact in JS up to 2^53).  Each definition is a direct translation of
the function of the same name in the repository source.
-/

namespace EReader

/-- JavaScript strings, embedded as lists of characters. -/
abbrev JSStr := List Char

/-- The JS `a || b` idiom on strings: empty strings are falsy. -/
def jsOr (a b : JSStr) : JSStr := if a = [] then b else a

/-- JS `s.substring(0, s.lastIndexOf('/'))`: the part of `s` before the last
slash, `""` when `s` has no slash (JS `lastIndexOf` returns `-1` and
`substring(0, -1)` clamps to the empty string). -/
def dirOf (s : JSStr) : JSStr :=
  if s.contains '/' then ((s.reverse.dropWhile (· ≠ '/')).drop 1).reverse else []

/-- JS `String.prototype.replace` with a plain-string pattern: replaces the
first occurrence of `pat` in `s` by `repl`, returns `s` unchanged when `pat`
does not occur. -/
def replaceFirst (s pat repl : JSStr) : JSStr :=
  if pat.isPrefixOf s then repl ++ s.drop pat.length
  else
    match s with
    | [] => []
    | c :: rest => c :: replaceFirst rest pat repl

/-- First binding of `key` in an association list (JS `Map.get`). -/
def lookupAssoc (m : List (JSStr × JSStr)) (key : JSStr) : Option JSStr :=
  match m with
  | [] => none
  | (k, v) :: rest => if k = key then some v else lookupAssoc rest key

/-! ### Shared path resolution (C5)

`EPUBParser.resolveResourcePath` (src/shared/parser/src/EPUBParser.js, lines
149-160) and `FontHandler.resolvePath` (src/unnamed/part_001, lines 125-139).
-/

/-- Embedding of `EPUBParser.resolveResourcePath(chapterPath, resourcePath)`: the chapter
image path resolver.  Note that the `../` case naively strips the first
`../` token without prepending the parent directory. -/
def resolveResourcePath (chapterPath resourcePath : JSStr) : JSStr :=
  let chapterDir := dirOf chapterPath
  if chapterDir = [] then resourcePath
  else if ("../".data).isPrefixOf resourcePath then
    replaceFirst resourcePath ("../".data) []
  else chapterDir ++ '/' :: resourcePath

/-- Embedding of `FontHandler.resolvePath(basePath, relativePath)`: the font/CSS path
resolver, which pops one directory level for `../`, treats a leading `/` as
archive-root-relative, and joins everything else onto the base directory. -/
def resolvePath (basePath relativePath : JSStr) : JSStr :=
  let baseDir := dirOf basePath
  if ("../".data).isPrefixOf relativePath then
    let parentDir := dirOf baseDir
    replaceFirst relativePath ("../".data)
      (if parentDir ≠ [] then parentDir ++ ['/'] else [])
  else if ("/".data).isPrefixOf relativePath then relativePath.drop 1
  else if ("./".data).isPrefixOf relativePath then
    let cleanPath := replaceFirst relativePath ("./".data) []
    if baseDir ≠ [] then baseDir ++ '/' :: cleanPath else cleanPath
  else if baseDir ≠ [] then baseDir ++ '/' :: relativePath else relativePath

/-! ### The ZIP archive interface (C8)

`ZipHandler.getTextFile` and `ZipHandler.getBinaryFile`
(src/shared/parser/src/ZipHandler.js, lines 29-41).
-/

/-- One archive entry, with its content viewed as text and as base64
(the two decodings `file.async('string')` / `file.async('base64')` of the
same stored bytes). -/
structure FileData where
  asText : JSStr
  asBase64 : JSStr
  deriving DecidableEq, Repr

/-- A loaded ZIP archive: a finite map from internal path to file data. -/
abbrev Zip := List (JSStr × FileData)

/-- JS `this.zip.file(path)`: entry lookup. -/
def zipFile (zip : Zip) (path : JSStr) : Option FileData :=
  match zip with
  | [] => none
  | (p, f) :: rest => if p = path then some f else zipFile rest path

/-- Errors thrown by the parser code (modelled structurally; the JS code
throws `Error` objects with the corresponding messages).
`undefinedPropertyAccess` stands for the runtime `TypeError` raised when a
property of `undefined` is read. -/
inductive JsError where
  | fileNotFound (path : JSStr)
  | invalidChapterIndex
  | chapterNotFound
  | undefinedPropertyAccess
  deriving DecidableEq, Repr

/-- Embedding of `ZipHandler.getTextFile(path)`: throws `File not found in EPUB` when the
path is absent, otherwise returns the text content. -/
def getTextFile (zip : Zip) (path : JSStr) : Except JsError JSStr :=
  match zipFile zip path with
  | none => .error (.fileNotFound path)
  | some f => .ok f.asText

/-- Embedding of `ZipHandler.getBinaryFile(path)`: returns `null` (here `none`) when the
path is absent — it does not throw — otherwise the base64 content. -/
def getBinaryFile (zip : Zip) (path : JSStr) : Option JSStr :=
  match zipFile zip path with
  | none => none
  | some f => some f.asBase64

/-- Modelled from the claim (C8): the spec's `readBinary`, which would fail
with `ResourceNotFound` on an absent path instead of returning a value. -/
def readBinarySpec (zip : Zip) (path : JSStr) : Except JsError JSStr :=
  match zipFile zip path with
  | none => .error (.fileNotFound path)
  | some f => .ok f.asBase64

/-! ### OPF spine extraction (C3)

`OPFParser.extractSpine` (src/shared/parser/src/OPFParser.js, lines 94-113).
-/

/-- A manifest entry as built by `OPFParser.extractManifest`. -/
structure ManifestItem where
  id : JSStr
  href : JSStr
  mediaType : JSStr
  isNav : Bool
  isCover : Bool
  deriving DecidableEq, Repr

/-- One `<itemref>` of the OPF spine: its `idref` and its optional
`linear` attribute. -/
structure ItemRef where
  idref : JSStr
  linearAttr : Option JSStr
  deriving DecidableEq, Repr

/-- A spine entry: the manifest entry's fields spread together with
`linear` and `order` (JS `{...manifest[idref], linear, order}`). -/
structure SpineItem where
  id : JSStr
  href : JSStr
  mediaType : JSStr
  isNav : Bool
  isCover : Bool
  linear : Bool
  order : Nat
  deriving DecidableEq, Repr

/-- The manifest object: keyed by id. -/
abbrev Manifest := List (JSStr × ManifestItem)

/-- JS `manifest[idref]` lookup. -/
def manifestGet (m : Manifest) (id : JSStr) : Option ManifestItem :=
  match m with
  | [] => none
  | (k, v) :: rest => if k = id then some v else manifestGet rest id

/-- The body of the `itemrefs.forEach` of `extractSpine`: an `<itemref>`
whose `idref` resolves in the manifest pushes a spine entry whose `order` is
the running length of the spine; an unresolvable idref is silently
skipped. -/
def spineStep (manifest : Manifest) (spine : List SpineItem) (ir : ItemRef) :
    List SpineItem :=
  match manifestGet manifest ir.idref with
  | some m =>
      spine ++ [{ id := m.id, href := m.href, mediaType := m.mediaType,
                  isNav := m.isNav, isCover := m.isCover,
                  linear := ir.linearAttr ≠ some ("no".data),
                  order := spine.length }]
  | none => spine

/-- Embedding of `OPFParser.extractSpine`. -/
def extractSpine (itemrefs : List ItemRef) (manifest : Manifest) : List SpineItem :=
  itemrefs.foldl (spineStep manifest) []

/-! ### Font-face CSS rewriting (C10)

`FontHandler.processCSSWithFonts` (src/unnamed/part_001, lines 85-123).  The
two regexes of the source, `/@font-face\s*{[^}]+}/g` and
`/url(['"]?([^'")]+)['"]?)/g` (parentheses escaped in the original), are
implemented as deterministic scanners; for these patterns the scanners agree
with the JS regex engine (the only backtracking alternatives all fail exactly
when the deterministic scan fails).  `\s` is modelled on the ASCII whitespace
characters, which is what CSS uses.
-/

/-- ASCII interpretation of the regex class `\s`. -/
def isJsSpace (c : Char) : Bool :=
  c = ' ' ∨ c = '\t' ∨ c = '\n' ∨ c = '\r' ∨ c = '\x0b' ∨ c = '\x0c'

/-- Try to match `@font-face\s*{[^}]+}` at the head of `cs`; on success
return the matched text and the remainder. -/
def matchFontFaceAt (cs : List Char) : Option (List Char × List Char) :=
  if ("@font-face".data).isPrefixOf cs then
    let rest0 := cs.drop 10
    let ws := rest0.takeWhile (isJsSpace ·)
    match rest0.drop ws.length with
    | '{' :: rest2 =>
      let body := rest2.takeWhile (· ≠ '}')
      if body = [] then none
      else
        match rest2.drop body.length with
        | '}' :: rest3 =>
            some ("@font-face".data ++ ws ++ '{' :: (body ++ ['}']), rest3)
        | _ => none
    | _ => none
  else none

theorem matchFontFaceAt_shrinks (cs m after : List Char)
    (h : matchFontFaceAt cs = some (m, after)) : after.length < cs.length := by
  unfold matchFontFaceAt at h
  split at h
  · rename_i hpre
    have hlen : 10 ≤ cs.length := by
      have := (List.isPrefixOf_iff_prefix.mp hpre).length_le
      simpa using this
    dsimp only at h
    split at h
    · rename_i rest2 heq
      have e1 : ((cs.drop 10).drop ((cs.drop 10).takeWhile (isJsSpace ·)).length).length
          = rest2.length + 1 := by rw [heq]; simp
      have e2 : ((cs.drop 10).drop ((cs.drop 10).takeWhile (isJsSpace ·)).length).length
          ≤ cs.length - 10 := by
        simp only [List.length_drop]
        omega
      have hr2 : rest2.length + 1 ≤ cs.length - 10 := by omega
      split at h
      · exact absurd h (by simp)
      · split at h
        · rename_i rest3 heq3
          have e3 : (rest2.drop (rest2.takeWhile (· ≠ '}')).length).length
              = rest3.length + 1 := by rw [heq3]; simp
          have e4 : (rest2.drop (rest2.takeWhile (· ≠ '}')).length).length
              ≤ rest2.length := by simp [List.length_drop]
          have hafter : after = rest3 := by
            simp only [Option.some.injEq, Prod.mk.injEq] at h
            exact h.2.symm
          have : after.length = rest3.length := by rw [hafter]
          omega
        · exact absurd h (by simp)
    · exact absurd h (by simp)
  · exact absurd h (by simp)

/-- Fuelled scan loop for the font-face regex.  The list handled at each
step is strictly shorter than at the previous one (`matchFontFaceAt_shrinks`),
so fuel equal to the initial length never runs out. -/
def scanFontFacesGo : Nat → List Char → List (List Char)
  | 0, _ => []
  | _ + 1, [] => []
  | fuel + 1, c :: rest =>
    match matchFontFaceAt (c :: rest) with
    | some (m, after) => m :: scanFontFacesGo fuel after
    | none => scanFontFacesGo fuel rest

/-- All matches of `/@font-face\s*{[^}]+}/g` over `cs`, in order
(`css.match(fontFaceRegex) || []`). -/
def scanFontFaces (cs : List Char) : List (List Char) :=
  scanFontFacesGo cs.length cs

/-- The regex fragment `['"]?`: consume one optional quote character,
returning (consumed text, remainder). -/
def stripQuote (cs : List Char) : List Char × List Char :=
  match cs with
  | c :: t => if c = '\'' ∨ c = '"' then ([c], t) else ([], c :: t)
  | [] => ([], [])

theorem stripQuote_len (cs : List Char) : (stripQuote cs).2.length ≤ cs.length := by
  match cs with
  | [] => simp [stripQuote]
  | c :: t =>
    simp only [stripQuote]
    split <;> simp

/-- Try to match `url(['"]?([^'")]+)['"]?)` at the head of `cs`; on success
return (whole match, captured group, remainder). -/
def matchUrlAt (cs : List Char) : Option (List Char × List Char × List Char) :=
  if ("url(".data).isPrefixOf cs then
    let p1 := stripQuote (cs.drop 4)
    let inner := p1.2.takeWhile (fun c => ¬(c = '\'' ∨ c = '"' ∨ c = ')'))
    if inner = [] then none
    else
      let p2 := stripQuote (p1.2.drop inner.length)
      match p2.2 with
      | ')' :: r4 => some ("url(".data ++ p1.1 ++ inner ++ p2.1 ++ [')'], inner, r4)
      | _ => none
  else none

theorem matchUrlAt_shrinks (cs m inner after : List Char)
    (h : matchUrlAt cs = some (m, inner, after)) : after.length < cs.length := by
  unfold matchUrlAt at h
  split at h
  · rename_i hpre
    have hlen : 4 ≤ cs.length := by
      have := (List.isPrefixOf_iff_prefix.mp hpre).length_le
      simpa using this
    dsimp only at h
    split at h
    · exact absurd h (by simp)
    · rename_i hinner
      split at h
      · rename_i r4 heq4
        have hafter : after = r4 := by
          simp only [Option.some.injEq, Prod.mk.injEq] at h
          exact h.2.2.symm
        have e0 : (cs.drop 4).length = cs.length - 4 := by simp
        have e1 : (stripQuote (cs.drop 4)).2.length ≤ cs.length - 4 := by
          have := stripQuote_len (cs.drop 4)
          omega
        have e2 : ((stripQuote (cs.drop 4)).2.drop
            ((stripQuote (cs.drop 4)).2.takeWhile
              (fun c => ¬(c = '\'' ∨ c = '"' ∨ c = ')'))).length).length
            ≤ (stripQuote (cs.drop 4)).2.length := by simp [List.length_drop]
        have e3 := stripQuote_len ((stripQuote (cs.drop 4)).2.drop
            ((stripQuote (cs.drop 4)).2.takeWhile
              (fun c => ¬(c = '\'' ∨ c = '"' ∨ c = ')'))).length)
        have e4 : (stripQuote ((stripQuote (cs.drop 4)).2.drop
            ((stripQuote (cs.drop 4)).2.takeWhile
              (fun c => ¬(c = '\'' ∨ c = '"' ∨ c = ')'))).length)).2.length
            = r4.length + 1 := by rw [heq4]; simp
        have : after.length = r4.length := by rw [hafter]
        omega
      · exact absurd h (by simp)
  · exact absurd h (by simp)

/-- Fuelled scan loop for the url regex (fuel never runs out by
`matchUrlAt_shrinks`). -/
def scanUrlsGo : Nat → List Char → List (List Char × List Char)
  | 0, _ => []
  | _ + 1, [] => []
  | fuel + 1, c :: rest =>
    match matchUrlAt (c :: rest) with
    | some (m, inner, after) => (m, inner) :: scanUrlsGo fuel after
    | none => scanUrlsGo fuel rest

/-- All matches of the `url(...)` regex over `cs`, in order, as
(whole match, captured group) pairs (the `while exec` loop of the source). -/
def scanUrls (cs : List Char) : List (List Char × List Char) :=
  scanUrlsGo cs.length cs

/-- The body of the `fontFaces.forEach` of `processCSSWithFonts`: inside one
`@font-face` block, each matched `url(...)` that is not already a `data:` URI
and whose resolved path is in the font cache is replaced (first occurrence)
by `url('<dataUrl>')`. -/
def processFontFace (fontCache : List (JSStr × JSStr)) (basePath fontFace : JSStr) : JSStr :=
  (scanUrls fontFace).foldl
    (fun acc wi =>
      if ("data:".data).isPrefixOf wi.2 then acc
      else
        match lookupAssoc fontCache (resolvePath basePath wi.2) with
        | some dataUrl => replaceFirst acc wi.1 ("url('".data ++ dataUrl ++ "')".data)
        | none => acc)
    fontFace

/-- Embedding of `FontHandler.processCSSWithFonts(css, basePath)` (with the instance's
`fontCache` made explicit): each matched `@font-face` block is processed and
substituted back (first occurrence) into the CSS. -/
def processCSSWithFonts (css basePath : JSStr) (fontCache : List (JSStr × JSStr)) : JSStr :=
  (scanFontFaces css).foldl
    (fun acc fontFace => replaceFirst acc fontFace (processFontFace fontCache basePath fontFace))
    css

/-! ### Current-page adjustment on recomputation (C6)

The bounds effect of `usePagination` (src/unnamed/part_000, lines 332-337):
`if (totalPages > 0 && currentPage >= totalPages) setCurrentPage(totalPages - 1)`.
Pages are 0-indexed in this hook.
-/

/-- The new current page (0-based) after `totalPages` changes. -/
def adjustCurrentPage (currentPage totalPages : Nat) : Nat :=
  if 0 < totalPages ∧ totalPages ≤ currentPage then totalPages - 1 else currentPage

/-- Modelled from the claim (C6): keep the page while its 1-based number
(`index + 1`) is at most the new total, otherwise clamp to page 1
(index 0). -/
def adjustCurrentPageSpec (currentPage totalPages : Nat) : Nat :=
  if currentPage + 1 ≤ totalPages then currentPage else 0

/-! ### Chapter loading (C4, C9)

`EPUBParser.getChapter` (src/shared/parser/src/EPUBParser.js, lines 70-131).
The runtime's `DOMParser` and the `CSSParser.getChapterCSS` collaborator
(whose source file is not part of the parser package here) are external to
this function and are passed in as explicit function parameters; the parsed
chapter body is a sequence of nodes, of which only `<img>` elements are
inspected by `getChapter`.
-/

/-- A node of the parsed chapter body: an `<img>` element (identified by its
`src` attribute, `[]` when the attribute is absent or empty — both are falsy
in the JS guard) or any other markup. -/
inductive Node where
  | img (src : JSStr)
  | other (markup : JSStr)
  deriving DecidableEq, Repr

/-- The result of `DOMParser.parseFromString(content, 'text/html')`, as far
as `getChapter` reads it: the document title and the body's nodes. -/
structure HtmlDoc where
  title : Option JSStr
  body : List Node
  deriving DecidableEq, Repr

/-- One stylesheet entry as returned by `CSSParser.getChapterCSS`: an inline
`<style>` has no `href`. -/
structure CssItem where
  href : Option JSStr
  content : JSStr
  deriving DecidableEq, Repr

/-- The chapter record returned by `getChapter`. -/
structure Chapter where
  title : JSStr
  content : List Node
  css : List CssItem
  combinedCSS : JSStr
  deriving DecidableEq, Repr

/-- The body of the image loop of `getChapter`: an `<img>` whose `src` is
set and not an absolute URL has its path resolved relative to the chapter;
when the binary exists in the archive the `src` is replaced by a base64 data
URI with the manifest's MIME type (`image/jpeg` when unresolvable), and when
the binary is absent (`getBinaryFile` returned null) the element is left
untouched. -/
def processNode (zip : Zip) (manifest : Manifest) (chapterHref : JSStr) :
    Node → Node
  | .img src =>
    if src ≠ [] ∧ ¬("http".data).isPrefixOf src then
      let imagePath := resolveResourcePath chapterHref src
      match getBinaryFile zip imagePath with
      | some imageData =>
          let mimeType :=
            ((manifest.map (·.2)).find? (fun item => item.href = imagePath)).map
              (·.mediaType) |>.getD ("image/jpeg".data)
          .img ("data:".data ++ mimeType ++ ";base64,".data ++ imageData)
      | none => .img src
    else .img src
  | .other markup => .other markup

/-- The join of of the processed CSS contents with `\n`
(`processedCSS.map(item => item.content).join('\n')`). -/
def joinLines (items : List JSStr) : JSStr :=
  match items with
  | [] => []
  | [x] => x
  | x :: rest => x ++ '\n' :: joinLines rest

/-- JS `spine[index]` for a (possibly negative) index: a negative index is
not an array slot, so the access yields `undefined`. -/
def spineAt (spine : List SpineItem) (index : Int) : Option SpineItem :=
  if 0 ≤ index then spine.get? index.toNat else none

/-- Embedding of `EPUBParser.getChapter(index)`.  `parse` stands for the runtime
`DOMParser`, `getChapterCSS` for `CSSParser.getChapterCSS`; `spine` is `null`
before `parse()` ran.  The guard rejects only `index >= spine.length`, so a
negative index passes it and the subsequent `spineItem.href` access on
`undefined` raises a `TypeError` (`undefinedPropertyAccess`). -/
def getChapter (parse : JSStr → HtmlDoc) (getChapterCSS : JSStr → JSStr → List CssItem)
    (zip : Zip) (manifest : Manifest) (fontCache : List (JSStr × JSStr))
    (spine : Option (List SpineItem)) (index : Int) : Except JsError Chapter :=
  match spine with
  | none => .error .invalidChapterIndex
  | some sp =>
    if ((sp.length : Int)) ≤ index then .error .invalidChapterIndex
    else
      match spineAt sp index with
      | none => .error .undefinedPropertyAccess
      | some spineItem => do
        let content ← getTextFile zip spineItem.href
        let chapterCSS := getChapterCSS content spineItem.href
        let processedCSS := chapterCSS.map fun cssItem =>
          { cssItem with
              content := processCSSWithFonts cssItem.content
                (jsOr (cssItem.href.getD []) spineItem.href) fontCache }
        let doc := parse content
        let body := doc.body.map (processNode zip manifest spineItem.href)
        .ok { title := doc.title.getD ("Chapter ".data ++ (Nat.repr (index.toNat + 1)).data),
              content := body,
              css := processedCSS,
              combinedCSS := joinLines (processedCSS.map (·.content)) }

/-! ### Character-count pagination (C1, C2)

`paginateContent` of the `usePagination` hook (src/unnamed/part_000, lines
56-195).  The hook paginates a list of chapter slots (array entries may be
missing/null); `charsPerPage` is the capacity computed by
`calculateCharsPerPage` and is kept as a parameter here.  Pages and the
`pageMap` entries are produced in lockstep keyed by the same running index,
so the map entry's `pageInChapter`/`totalPagesInChapter` fields are carried
on the page record.  The sliced HTML `content` string is a rendering of the
same `textContent` slice and is not separately modelled.
-/

/-- A chapter slot as consumed by the hook. -/
structure ChapterSlot where
  content : JSStr
  loaded : Bool
  title : Option JSStr
  deriving DecidableEq, Repr

/-- Fuelled loop for `stripTags` (the list shrinks at every step, so fuel
equal to the initial length never runs out). -/
def stripTagsGo : Nat → List Char → List Char
  | 0, cs => cs
  | _ + 1, [] => []
  | fuel + 1, c :: rest =>
    if c = '<' then
      if rest.contains '>' then stripTagsGo fuel ((rest.dropWhile (· ≠ '>')).drop 1)
      else c :: stripTagsGo fuel rest
    else c :: stripTagsGo fuel rest

/-- JS `content.replace(/<[^>]*>/g, '')`: drop every maximal `<...>` run
(a `<` with no later `>` is kept, as the regex then fails to match). -/
def stripTags (cs : List Char) : List Char :=
  stripTagsGo cs.length cs

/-- JS `Math.ceil(a / b)` on exact naturals. -/
def ceilDiv (a b : Nat) : Nat := (a + b - 1) / b

/-- One page record together with its `pageMap` entry. -/
structure HookPage where
  pageNumber : Nat
  chapterIndex : Nat
  pageInChapter : Nat
  totalPagesInChapter : Nat
  startOffset : Nat
  endOffset : Nat
  textContent : JSStr
  isFirstPageOfChapter : Bool
  isLastPageOfChapter : Bool
  isPlaceholder : Bool
  deriving DecidableEq, Repr

/-- The pages contributed by one chapter slot: a missing (null) chapter is
skipped entirely; an unloaded or contentless chapter contributes one
placeholder page; otherwise `max(1, ceil(textLength / charsPerPage))` pages
are created, the `p`-th covering characters `[p*cap, min((p+1)*cap, len))` of
the tag-stripped text. -/
def chapterPages (charsPerPage chapterIndex globalPageIndex : Nat)
    (slot : Option ChapterSlot) : List HookPage :=
  match slot with
  | none => []
  | some ch =>
    if ch.content = [] ∨ ch.loaded = false then
      [{ pageNumber := globalPageIndex, chapterIndex := chapterIndex,
         pageInChapter := 0, totalPagesInChapter := 1,
         startOffset := 0, endOffset := 0, textContent := [],
         isFirstPageOfChapter := true, isLastPageOfChapter := true,
         isPlaceholder := true }]
    else
      let textContent := stripTags ch.content
      let chapterLength := textContent.length
      let pagesInChapter := max 1 (ceilDiv chapterLength charsPerPage)
      (List.range pagesInChapter).map fun p =>
        { pageNumber := globalPageIndex + p, chapterIndex := chapterIndex,
          pageInChapter := p, totalPagesInChapter := pagesInChapter,
          startOffset := p * charsPerPage,
          endOffset := min ((p + 1) * charsPerPage) chapterLength,
          textContent := (textContent.drop (p * charsPerPage)).take
            (min ((p + 1) * charsPerPage) chapterLength - p * charsPerPage),
          isFirstPageOfChapter := p = 0,
          isLastPageOfChapter := p = pagesInChapter - 1,
          isPlaceholder := false }

/-- The `chapters.forEach` loop: chapters processed in order with the running
chapter index and global page counter. -/
def paginateChapters (charsPerPage : Nat) :
    List (Option ChapterSlot) → Nat → Nat → List HookPage
  | [], _, _ => []
  | slot :: rest, chapterIndex, globalPageIndex =>
    let block := chapterPages charsPerPage chapterIndex globalPageIndex slot
    block ++ paginateChapters charsPerPage rest (chapterIndex + 1)
      (globalPageIndex + block.length)

/-- Embedding of `paginateContent`: the full book-wide page list. -/
def paginateContent (charsPerPage : Nat) (chapters : List (Option ChapterSlot)) :
    List HookPage :=
  paginateChapters charsPerPage chapters 0 0

/-- Lexicographic order on (chapterIndex, pageInChapter). -/
def pageLexLt (a b : HookPage) : Prop :=
  a.chapterIndex < b.chapterIndex ∨
    (a.chapterIndex = b.chapterIndex ∧ a.pageInChapter < b.pageInChapter)

/-! ### Navigation of the `usePagination` hooks (C6, C7)

The character-estimate hook (src/unnamed/part_000, lines 200-226) works on
0-based page indices; the binary-search hook (src/unnamed/part_002, lines
184-318) works on 1-based page numbers.
-/

/-- Embedding of `goToPage(pageNumber)` of the 0-based hook (src/unnamed/part_000, lines
200-206): accepts the page only when `0 <= n < totalPages`, returning the new
current page and the success flag; out-of-range input leaves the page
unchanged — it is not clamped. -/
def hookGoToPage (totalPages currentPage : Nat) (pageNumber : Int) : Nat × Bool :=
  if 0 ≤ pageNumber ∧ pageNumber < (totalPages : Int) then (pageNumber.toNat, true)
  else (currentPage, false)

/-- Modelled from the claim (C7): clamping `n` into the claim's
`[1, totalPages]`, expressed in the 0-based indexing of this hook
(page 1 is index 0, the last page is index `totalPages - 1`). -/
def hookGoToPageSpec (totalPages currentPage : Nat) (pageNumber : Int) : Nat :=
  if totalPages = 0 then currentPage
  else min (max pageNumber 0).toNat (totalPages - 1)

/-- A page entry of the binary-search hook's `pages` array. -/
structure BookPage where
  content : JSStr
  chapterIndex : Nat
  chapterTitle : JSStr
  combinedCSS : JSStr
  deriving DecidableEq, Repr

/-- The `pageContent` record set by the navigation callbacks. -/
structure PageView where
  content : JSStr
  combinedCSS : JSStr
  chapterTitle : JSStr
  deriving DecidableEq, Repr

/-- The chapter record kept in `chapterData` (only the fields navigation
reads). -/
structure ChapterData where
  title : JSStr
  combinedCSS : JSStr
  deriving DecidableEq, Repr

/-- The hook state navigated by `goToPage`/`nextPage`/`prevPage`. -/
structure PagerState where
  currentPage : Nat
  pages : List BookPage
  pageContent : Option PageView
  chapterData : Option ChapterData
  deriving DecidableEq, Repr

/-- The `setPageContent({...})` record built by all three callbacks
(`pageData.content || pageData` falls back to the page object itself only
when `content` is empty, which the pages built by `calculatePages` rule out;
the string fallbacks are modelled by `jsOr`). -/
def mkPageView (pd : BookPage) (cd : Option ChapterData) : PageView :=
  { content := pd.content,
    combinedCSS := jsOr pd.combinedCSS ((cd.map (·.combinedCSS)).getD []),
    chapterTitle := jsOr pd.chapterTitle
      (jsOr ((cd.map (·.title)).getD []) ("Chapter 1".data)) }

/-- Embedding of `goToPage(pageNumber)` of the binary-search hook (src/unnamed/part_002,
lines 303-314): clamp into `[1, pages.length]`, and update only when the
clamped target differs from the current page and that page exists. -/
def goToPage (s : PagerState) (pageNumber : Int) : PagerState :=
  let targetPage : Int := max 1 (min pageNumber (s.pages.length : Int))
  if targetPage ≠ (s.currentPage : Int) then
    match s.pages.get? (targetPage.toNat - 1) with
    | some pageData =>
        { s with currentPage := targetPage.toNat,
                 pageContent := some (mkPageView pageData s.chapterData) }
    | none => s
  else s

/-- Embedding of `nextPage()` of the binary-search hook (lines 271-282). -/
def nextPage (s : PagerState) : PagerState :=
  if s.currentPage < s.pages.length then
    match s.pages.get? (s.currentPage + 1 - 1) with
    | some pageData =>
        { s with currentPage := s.currentPage + 1,
                 pageContent := some (mkPageView pageData s.chapterData) }
    | none => s
  else s

/-- Embedding of `prevPage()` of the binary-search hook (lines 287-298). -/
def prevPage (s : PagerState) : PagerState :=
  if 1 < s.currentPage then
    match s.pages.get? (s.currentPage - 1 - 1) with
    | some pageData =>
        { s with currentPage := s.currentPage - 1,
                 pageContent := some (mkPageView pageData s.chapterData) }
    | none => s
  else s

/-! ## Supporting lemmas -/

theorem spineStep_orders (manifest : Manifest) (acc : List SpineItem) (ir : ItemRef)
    (hacc : ∀ i (h : i < acc.length), (acc.get ⟨i, h⟩).order = i) :
    ∀ i (h : i < (spineStep manifest acc ir).length),
      ((spineStep manifest acc ir).get ⟨i, h⟩).order = i := by
  intro i h
  simp only [List.get_eq_getElem] at hacc ⊢
  unfold spineStep at h ⊢
  split at h
  · rename_i m hm
    simp only [List.length_append, List.length_cons, List.length_nil] at h
    by_cases hi : i < acc.length
    · rw [List.getElem_append_left hi]
      exact hacc i hi
    · have : i = acc.length := by omega
      subst this
      simp
  · exact hacc i h

theorem foldl_spineStep_orders (manifest : Manifest) (itemrefs : List ItemRef) :
    ∀ (acc : List SpineItem),
      (∀ i (h : i < acc.length), (acc.get ⟨i, h⟩).order = i) →
      ∀ i (h : i < (itemrefs.foldl (spineStep manifest) acc).length),
        ((itemrefs.foldl (spineStep manifest) acc).get ⟨i, h⟩).order = i := by
  induction itemrefs with
  | nil => intro acc hacc; simpa using hacc
  | cons ir rest ih =>
    intro acc hacc
    exact ih (spineStep manifest acc ir) (spineStep_orders manifest acc ir hacc)

theorem ceilDiv_self (cap : Nat) (hcap : 0 < cap) : ceilDiv cap cap = 1 := by
  unfold ceilDiv
  exact Nat.div_eq_of_lt_le (by omega) (by omega)

/-- The arithmetic sequence `[g, g+1, ..., g+n-1]`. -/
def natsFrom (g n : Nat) : List Nat := (List.range n).map (g + ·)

theorem natsFrom_append (g m n : Nat) :
    natsFrom g m ++ natsFrom (g + m) n = natsFrom g (m + n) := by
  unfold natsFrom
  rw [List.range_add, List.map_append, List.map_map]
  congr 1
  simp [Function.comp_def, Nat.add_assoc]

theorem chapterPages_none (cap ci g : Nat) : chapterPages cap ci g none = [] := rfl

theorem chapterPages_placeholder (cap ci g : Nat) (ch : ChapterSlot)
    (h : ch.content = [] ∨ ch.loaded = false) :
    chapterPages cap ci g (some ch)
      = [{ pageNumber := g, chapterIndex := ci, pageInChapter := 0,
           totalPagesInChapter := 1, startOffset := 0, endOffset := 0,
           textContent := [], isFirstPageOfChapter := true,
           isLastPageOfChapter := true, isPlaceholder := true }] := by
  simp only [chapterPages, if_pos h]

theorem chapterPages_loaded (cap ci g : Nat) (ch : ChapterSlot)
    (h : ¬(ch.content = [] ∨ ch.loaded = false)) :
    chapterPages cap ci g (some ch)
      = (List.range (max 1 (ceilDiv (stripTags ch.content).length cap))).map (fun p =>
          { pageNumber := g + p, chapterIndex := ci, pageInChapter := p,
            totalPagesInChapter := max 1 (ceilDiv (stripTags ch.content).length cap),
            startOffset := p * cap,
            endOffset := min ((p + 1) * cap) (stripTags ch.content).length,
            textContent := ((stripTags ch.content).drop (p * cap)).take
              (min ((p + 1) * cap) (stripTags ch.content).length - p * cap),
            isFirstPageOfChapter := p = 0,
            isLastPageOfChapter := p = max 1 (ceilDiv (stripTags ch.content).length cap) - 1,
            isPlaceholder := false }) := by
  simp only [chapterPages, if_neg h]

theorem chapterPages_map_pageNumber (cap ci g : Nat) (slot : Option ChapterSlot) :
    (chapterPages cap ci g slot).map (·.pageNumber)
      = natsFrom g (chapterPages cap ci g slot).length := by
  cases slot with
  | none => simp [chapterPages_none, natsFrom]
  | some ch =>
    by_cases h : ch.content = [] ∨ ch.loaded = false
    · rw [chapterPages_placeholder cap ci g ch h]
      simp [natsFrom, List.range_succ]
    · rw [chapterPages_loaded cap ci g ch h]
      simp [natsFrom, List.map_map, Function.comp_def]

theorem paginateChapters_map_pageNumber (cap : Nat) (chs : List (Option ChapterSlot)) :
    ∀ (ci g : Nat),
      (paginateChapters cap chs ci g).map (·.pageNumber)
        = natsFrom g (paginateChapters cap chs ci g).length := by
  induction chs with
  | nil => intro ci g; simp [paginateChapters, natsFrom]
  | cons slot rest ih =>
    intro ci g
    simp only [paginateChapters]
    rw [List.map_append, chapterPages_map_pageNumber, ih, List.length_append]
    exact natsFrom_append _ _ _

theorem chapterPages_chapterIndex (cap ci g : Nat) (slot : Option ChapterSlot) :
    ∀ p ∈ chapterPages cap ci g slot, p.chapterIndex = ci := by
  intro p hp
  cases slot with
  | none => simp [chapterPages_none] at hp
  | some ch =>
    by_cases h : ch.content = [] ∨ ch.loaded = false
    · rw [chapterPages_placeholder cap ci g ch h] at hp
      simp only [List.mem_singleton] at hp
      subst hp
      rfl
    · rw [chapterPages_loaded cap ci g ch h] at hp
      simp only [List.mem_map, List.mem_range] at hp
      obtain ⟨x, _, rfl⟩ := hp
      rfl

theorem chapterPages_pairwise (cap ci g : Nat) (slot : Option ChapterSlot) :
    List.Pairwise pageLexLt (chapterPages cap ci g slot) := by
  cases slot with
  | none => simp [chapterPages_none]
  | some ch =>
    by_cases h : ch.content = [] ∨ ch.loaded = false
    · rw [chapterPages_placeholder cap ci g ch h]
      simp
    · rw [chapterPages_loaded cap ci g ch h]
      rw [List.pairwise_map]
      exact (List.pairwise_lt_range _).imp fun hab => Or.inr ⟨rfl, hab⟩

theorem paginateChapters_ci_le (cap : Nat) (chs : List (Option ChapterSlot)) :
    ∀ (ci g : Nat) (p : HookPage), p ∈ paginateChapters cap chs ci g →
      ci ≤ p.chapterIndex := by
  induction chs with
  | nil => intro ci g p hp; simp [paginateChapters] at hp
  | cons slot rest ih =>
    intro ci g p hp
    simp only [paginateChapters, List.mem_append] at hp
    rcases hp with hp | hp
    · exact le_of_eq (chapterPages_chapterIndex cap ci g slot p hp).symm
    · have := ih (ci + 1) _ p hp
      omega

theorem paginateChapters_pairwise (cap : Nat) (chs : List (Option ChapterSlot)) :
    ∀ (ci g : Nat), List.Pairwise pageLexLt (paginateChapters cap chs ci g) := by
  induction chs with
  | nil => intro ci g; simp [paginateChapters]
  | cons slot rest ih =>
    intro ci g
    simp only [paginateChapters]
    rw [List.pairwise_append]
    refine ⟨chapterPages_pairwise cap ci g slot, ih _ _, fun a ha b hb => ?_⟩
    have h1 := chapterPages_chapterIndex cap ci g slot a ha
    have h2 := paginateChapters_ci_le cap rest (ci + 1) _ b hb
    exact Or.inl (by omega)

/-! ## Claims -/

/-- C1: a loaded chapter with content contributes exactly
`max(1, ceil(contentSize / charsPerPage))` pages, where `contentSize` is the
length of the tag-stripped text; a chapter whose content exactly fills one
page yields exactly 1 page; an unloaded or contentless chapter still yields
exactly 1 (placeholder) page.  (`charsPerPage > 0` is assumed, as the JS
computation is only meaningful for a positive capacity.) -/
theorem claimC1 (cap chapterIndex g : Nat) (ch : ChapterSlot) (hcap : 0 < cap) :
    (ch.loaded = true → ch.content ≠ [] →
       (chapterPages cap chapterIndex g (some ch)).length
         = max 1 (ceilDiv (stripTags ch.content).length cap))
    ∧ (ch.content = [] ∨ ch.loaded = false →
       (chapterPages cap chapterIndex g (some ch)).length = 1)
    ∧ (ch.loaded = true → ch.content ≠ [] → (stripTags ch.content).length = cap →
       (chapterPages cap chapterIndex g (some ch)).length = 1) := by
  refine ⟨fun hl hc => ?_, fun h => ?_, fun hl hc hfit => ?_⟩
  · rw [chapterPages_loaded cap chapterIndex g ch (by simp [hl, hc])]
    simp
  · rw [chapterPages_placeholder cap chapterIndex g ch h]
    rfl
  · rw [chapterPages_loaded cap chapterIndex g ch (by simp [hl, hc])]
    simp [hfit, ceilDiv_self cap hcap]

/-- Witness for C1: an 11-character chapter at capacity 5 gets
`max(1, ceil(11/5)) = 3` pages; an empty chapter gets 1 page; a chapter of
exactly 5 characters at capacity 5 gets exactly 1 page, not 2. -/
theorem claimC1_witness :
    (chapterPages 5 0 0 (some ⟨"hello world".data, true, none⟩)).length
      = max 1 (ceilDiv (stripTags ("hello world".data)).length 5)
    ∧ (chapterPages 5 0 0 (some ⟨[], true, none⟩)).length = 1
    ∧ (chapterPages 5 0 0 (some ⟨"12345".data, true, none⟩)).length = 1 :=
  ⟨(claimC1 5 0 0 _ (by decide)).1 rfl (by decide),
   (claimC1 5 0 0 _ (by decide)).2.1 (Or.inl rfl),
   (claimC1 5 0 0 _ (by decide)).2.2 rfl (by decide) (by decide)⟩

/-- C2 counterexample: the page records are numbered from 0, not from 1 —
for a single-chapter book the only page's `pageNumber` is 0, where the claim
requires the numbering to start at 1. -/
theorem claimC2_cex :
    (paginateContent 10 [some ⟨"hello".data, true, none⟩]).map (·.pageNumber) = [0]
    ∧ (0 : Nat) ≠ 1 :=
  ⟨by decide, by decide⟩

/-- C2 (amended): the book-wide page sequence is numbered with contiguous
integers starting at 0 — `pageNumber` equals the page's position in the
sequence, with no gaps or duplicates — and
`(chapterIndex, positionWithinChapter)` strictly increases lexicographically
along the sequence, chapters contributing in spine order. -/
theorem claimC2 (cap : Nat) (chapters : List (Option ChapterSlot)) (hcap : 0 < cap) :
    (paginateContent cap chapters).map (·.pageNumber)
      = List.range (paginateContent cap chapters).length
    ∧ List.Pairwise pageLexLt (paginateContent cap chapters) := by
  constructor
  · unfold paginateContent
    rw [paginateChapters_map_pageNumber]
    unfold natsFrom
    simp
  · exact paginateChapters_pairwise cap chapters 0 0

/-- Witness for C2: a three-slot book (one loaded chapter, one missing slot,
one unloaded chapter). -/
theorem claimC2_witness :
    (paginateContent 10 [some ⟨"hello world, hello".data, true, none⟩, none,
        some ⟨"more".data, false, none⟩]).map (·.pageNumber)
      = List.range (paginateContent 10 [some ⟨"hello world, hello".data, true, none⟩, none,
          some ⟨"more".data, false, none⟩]).length
    ∧ List.Pairwise pageLexLt (paginateContent 10 [some ⟨"hello world, hello".data, true, none⟩,
        none, some ⟨"more".data, false, none⟩]) :=
  claimC2 10 _ (by decide)

/-- C3: for every parsed OPF spine and every index `i` into the result,
`spine[i].order = i` — the order is positional with no gaps, even when some
`<itemref>`s were skipped because their `idref` does not resolve in the
manifest. -/
theorem claimC3 (itemrefs : List ItemRef) (manifest : Manifest) (i : Nat)
    (h : i < (extractSpine itemrefs manifest).length) :
    ((extractSpine itemrefs manifest).get ⟨i, h⟩).order = i := by
  unfold extractSpine at h ⊢
  exact foldl_spineStep_orders manifest itemrefs [] (by intro i h; simp at h) i h

/-- An example manifest with entries `a` and `c` (no `b`). -/
def exManifest : Manifest :=
  [ ("a".data, { id := "a".data, href := "OEBPS/a.xhtml".data,
                 mediaType := "application/xhtml+xml".data, isNav := false, isCover := false }),
    ("c".data, { id := "c".data, href := "OEBPS/c.xhtml".data,
                 mediaType := "application/xhtml+xml".data, isNav := false, isCover := false }) ]

/-- Example spine refs: `b` does not resolve and is skipped. -/
def exItemRefs : List ItemRef :=
  [ { idref := "a".data, linearAttr := none },
    { idref := "b".data, linearAttr := none },
    { idref := "c".data, linearAttr := some ("no".data) } ]

/-- Witness for C3: with the unresolvable `b` skipped, entry 1 of the spine
is `c` and its `order` is 1 (no gap). -/
theorem claimC3_witness :
    1 < (extractSpine exItemRefs exManifest).length
    ∧ ((extractSpine exItemRefs exManifest).get ⟨1, by decide⟩).order = 1 :=
  ⟨by decide, claimC3 exItemRefs exManifest 1 (by decide)⟩

/-- C5 counterexample: on base `OEBPS/text/ch1.xhtml` and reference
`../fonts/a.ttf`, the chapter-image resolver strips the `../` token without
prepending the parent directory, while the font resolver pops one directory
level — the two return different archive paths, so the claim that they agree
on every input is false. -/
theorem claimC5_cex :
    resolveResourcePath ("OEBPS/text/ch1.xhtml".data) ("../fonts/a.ttf".data)
      = ("fonts/a.ttf".data)
    ∧ resolvePath ("OEBPS/text/ch1.xhtml".data) ("../fonts/a.ttf".data)
      = ("OEBPS/fonts/a.ttf".data)
    ∧ ("fonts/a.ttf".data : JSStr) ≠ ("OEBPS/fonts/a.ttf".data) :=
  ⟨by decide, by decide, by decide⟩

/-- C5 (amended): the two resolvers agree on every plain relative reference
(one not starting with `../`, `./` or `/`): both join it to the base
document's directory (or return it unchanged when the base has no
directory).  They differ on `../` references (naive strip vs directory pop)
and on root-relative `/` references. -/
theorem claimC5 (base ref : JSStr)
    (h1 : ("../".data).isPrefixOf ref = false)
    (h2 : ("./".data).isPrefixOf ref = false)
    (h3 : ("/".data).isPrefixOf ref = false) :
    resolveResourcePath base ref = resolvePath base ref := by
  unfold resolveResourcePath resolvePath
  by_cases hd : dirOf base = [] <;> simp [hd, h1, h2, h3]

/-- Witness for C5: a plain reference resolved identically by both
functions. -/
theorem claimC5_witness :
    resolveResourcePath ("OEBPS/ch1.xhtml".data) ("images/pic.png".data)
      = resolvePath ("OEBPS/ch1.xhtml".data) ("images/pic.png".data) :=
  claimC5 ("OEBPS/ch1.xhtml".data) ("images/pic.png".data) (by decide) (by decide) (by decide)

/-- C6 counterexample: with the current page at index 5 and a new total of 3
pages, the hook sets the current page to index 2 (the last page), not to
page 1 (index 0) as the claim's clamp-to-page-1 policy requires. -/
theorem claimC6_cex :
    adjustCurrentPage 5 3 = 2 ∧ adjustCurrentPageSpec 5 3 = 0 ∧ (2 : Nat) ≠ 0 :=
  ⟨by decide, by decide, by decide⟩

/-- C6 (amended): across a recomputation the previously current page (0-based)
is kept whenever it is still in range of the new total; otherwise it is
clamped to the LAST page (`totalPages - 1`), not to page 1; a zero total
leaves the current page untouched. -/
theorem claimC6 (currentPage totalPages : Nat) :
    (currentPage < totalPages → adjustCurrentPage currentPage totalPages = currentPage)
    ∧ (0 < totalPages → totalPages ≤ currentPage →
         adjustCurrentPage currentPage totalPages = totalPages - 1
         ∧ adjustCurrentPage currentPage totalPages < totalPages)
    ∧ (totalPages = 0 → adjustCurrentPage currentPage totalPages = currentPage) := by
  unfold adjustCurrentPage
  refine ⟨fun h => ?_, fun h1 h2 => ?_, fun h => ?_⟩
  · rw [if_neg]; omega
  · rw [if_pos ⟨h1, h2⟩]; omega
  · rw [if_neg]; omega

/-- Witness for C6: an out-of-range current page 7 with new total 4 lands on
the last page, index 3. -/
theorem claimC6_witness :
    adjustCurrentPage 7 4 = 4 - 1 ∧ adjustCurrentPage 7 4 < 4 :=
  (claimC6 7 4).2.1 (by decide) (by decide)

/-- C8 counterexample: on a path absent from the archive `getBinaryFile`
returns `null` (here `none`) — it does not fail — while the claim's
`readBinary` (modelled as `readBinarySpec`) fails with `ResourceNotFound`. -/
theorem claimC8_cex :
    getBinaryFile [] ("missing.png".data) = none
    ∧ readBinarySpec [] ("missing.png".data)
        = .error (.fileNotFound ("missing.png".data)) :=
  ⟨rfl, rfl⟩

/-- C8 (amended): for a path absent from the archive, `getTextFile` fails
with the `File not found in EPUB` (`ResourceNotFound`) error, but
`getBinaryFile` returns `null` without failing. -/
theorem claimC8 (zip : Zip) (path : JSStr) (h : zipFile zip path = none) :
    getTextFile zip path = .error (.fileNotFound path)
    ∧ getBinaryFile zip path = none := by
  unfold getTextFile getBinaryFile
  rw [h]
  exact ⟨rfl, rfl⟩

/-- Witness for C8 at a concrete archive and path. -/
theorem claimC8_witness :
    getTextFile [(("mimetype".data : JSStr), ⟨"application/epub+zip".data, "x".data⟩)]
        ("OEBPS/ch1.xhtml".data)
      = .error (.fileNotFound ("OEBPS/ch1.xhtml".data))
    ∧ getBinaryFile [(("mimetype".data : JSStr), ⟨"application/epub+zip".data, "x".data⟩)]
        ("OEBPS/ch1.xhtml".data) = none :=
  claimC8 _ _ (by decide)

/-- C4 counterexample: on a one-chapter spine, `getChapter(-1)` passes the
`index >= spine.length` guard, so it fails with the undefined-property
`TypeError` of `spine[-1].href`, not with the `InvalidChapterIndex` error the
claim requires for every out-of-range index. -/
theorem claimC4_cex :
    getChapter (fun _ => ⟨none, []⟩) (fun _ _ => []) [] [] []
        (some [⟨"c1".data, "ch1.xhtml".data, "application/xhtml+xml".data,
               false, false, true, 0⟩]) (-1)
      = .error .undefinedPropertyAccess
    ∧ (Except.error .undefinedPropertyAccess : Except JsError Chapter)
      ≠ .error .invalidChapterIndex :=
  ⟨rfl, fun h => absurd (Except.error.inj h) (by decide)⟩

/-- C4 (amended): for every index outside `[0, spine.length)` `getChapter`
fails — it never returns chapter data — but with two different errors: an
index `≥ spine.length` (or an unparsed spine) raises `InvalidChapterIndex`,
while a negative index slips past the guard and raises the
undefined-property `TypeError`. -/
theorem claimC4 (parse : JSStr → HtmlDoc) (getChapterCSS : JSStr → JSStr → List CssItem)
    (zip : Zip) (manifest : Manifest) (fontCache : List (JSStr × JSStr))
    (sp : List SpineItem) (index : Int) :
    ((sp.length : Int) ≤ index →
       getChapter parse getChapterCSS zip manifest fontCache (some sp) index
         = .error .invalidChapterIndex)
    ∧ (index < 0 →
       getChapter parse getChapterCSS zip manifest fontCache (some sp) index
         = .error .undefinedPropertyAccess)
    ∧ ((index < 0 ∨ (sp.length : Int) ≤ index) → ∀ ch,
       getChapter parse getChapterCSS zip manifest fontCache (some sp) index ≠ .ok ch)
    ∧ getChapter parse getChapterCSS zip manifest fontCache none index
        = .error .invalidChapterIndex := by
  refine ⟨fun h => ?_, fun h => ?_, fun h ch => ?_, rfl⟩
  · simp only [getChapter]
    rw [if_pos h]
  · have hlt : ¬((sp.length : Int) ≤ index) := by omega
    simp only [getChapter]
    rw [if_neg hlt]
    unfold spineAt
    rw [if_neg (by omega)]
  · rcases h with h | h
    · have hlt : ¬((sp.length : Int) ≤ index) := by omega
      simp only [getChapter]
      rw [if_neg hlt]
      unfold spineAt
      rw [if_neg (by omega)]
      simp
    · simp only [getChapter]
      rw [if_pos h]
      simp

/-- Witness for C4: both failing shapes at concrete indices on a one-chapter
book. -/
theorem claimC4_witness :
    getChapter (fun _ => ⟨none, []⟩) (fun _ _ => []) [] [] []
        (some [⟨"c1".data, "ch1.xhtml".data, "application/xhtml+xml".data,
               false, false, true, 0⟩]) 5
      = .error .invalidChapterIndex :=
  (claimC4 (fun _ => ⟨none, []⟩) (fun _ _ => []) [] [] [] _ 5).1 (by decide)

theorem processNode_missing_img (zip : Zip) (manifest : Manifest) (chapterHref src : JSStr)
    (hsrc : src ≠ []) (hhttp : ("http".data).isPrefixOf src = false)
    (habsent : zipFile zip (resolveResourcePath chapterHref src) = none) :
    processNode zip manifest chapterHref (.img src) = .img src := by
  simp only [processNode]
  rw [if_pos ⟨hsrc, by simp [hhttp]⟩]
  unfold getBinaryFile
  rw [habsent]

/-- C9: when an in-range chapter's HTML contains an `<img>` whose resolved
archive path is absent from the archive, `getChapter` still succeeds, that
image element keeps its original `src` (no data URI substituted), and every
node of the returned body is the pointwise `processNode` image of the
corresponding parsed node — the missing image affects no other content. -/
theorem claimC9 (parse : JSStr → HtmlDoc) (getChapterCSS : JSStr → JSStr → List CssItem)
    (zip : Zip) (manifest : Manifest) (fontCache : List (JSStr × JSStr))
    (sp : List SpineItem) (i : Nat) (hi : i < sp.length) (fd : FileData)
    (hfile : zipFile zip (sp.get ⟨i, hi⟩).href = some fd)
    (k : Nat) (src : JSStr)
    (hnode : (parse fd.asText).body.get? k = some (.img src))
    (hsrc : src ≠ []) (hhttp : ("http".data).isPrefixOf src = false)
    (habsent : zipFile zip (resolveResourcePath (sp.get ⟨i, hi⟩).href src) = none) :
    ∃ ch, getChapter parse getChapterCSS zip manifest fontCache (some sp) (i : Int) = .ok ch
      ∧ ch.content = (parse fd.asText).body.map
          (processNode zip manifest (sp.get ⟨i, hi⟩).href)
      ∧ ch.content.get? k = some (.img src) := by
  have hguard : ¬((sp.length : Int) ≤ (i : Int)) := by
    simp only [not_le]
    exact_mod_cast hi
  have hspineAt : spineAt sp (i : Int) = some (sp.get ⟨i, hi⟩) := by
    unfold spineAt
    rw [if_pos (by omega)]
    simp [List.get?_eq_get hi]
  have htext : getTextFile zip (sp.get ⟨i, hi⟩).href = .ok fd.asText := by
    unfold getTextFile
    rw [hfile]
  have hmain : getChapter parse getChapterCSS zip manifest fontCache (some sp) (i : Int)
      = .ok { title := (parse fd.asText).title.getD
                ("Chapter ".data ++ (Nat.repr ((i : Int).toNat + 1)).data),
              content := (parse fd.asText).body.map
                (processNode zip manifest (sp.get ⟨i, hi⟩).href),
              css := (getChapterCSS fd.asText (sp.get ⟨i, hi⟩).href).map fun cssItem =>
                { cssItem with
                    content := processCSSWithFonts cssItem.content
                      (jsOr (cssItem.href.getD []) (sp.get ⟨i, hi⟩).href) fontCache },
              combinedCSS := joinLines
                (((getChapterCSS fd.asText (sp.get ⟨i, hi⟩).href).map fun cssItem =>
                  { cssItem with
                      content := processCSSWithFonts cssItem.content
                        (jsOr (cssItem.href.getD []) (sp.get ⟨i, hi⟩).href) fontCache }).map
                  (·.content)) } := by
    simp only [getChapter]
    rw [if_neg hguard, hspineAt]
    simp only [htext]
    rfl
  refine ⟨_, hmain, rfl, ?_⟩
  · rw [List.get?_map, hnode]
    simp only [Option.map_some']
    rw [processNode_missing_img zip manifest (sp.get ⟨i, hi⟩).href src hsrc hhttp habsent]

/-- Witness for C9: a one-chapter book whose chapter markup holds one image
pointing at a path missing from the archive. -/
theorem claimC9_witness :
    ∃ ch, getChapter
        (fun _ => ⟨none, [.other "<p>text</p>".data, .img ("img/pic.png".data)]⟩)
        (fun _ _ => []) [(("ch1.xhtml".data : JSStr), ⟨"markup".data, "bWFya3Vw".data⟩)]
        [] []
        (some [⟨"c1".data, "ch1.xhtml".data, "application/xhtml+xml".data,
               false, false, true, 0⟩]) ((1 : Nat) - 1)
      = .ok ch
      ∧ ch.content = ((fun (_ : JSStr) =>
          (⟨none, [.other "<p>text</p>".data, .img ("img/pic.png".data)]⟩ : HtmlDoc))
            (⟨"markup".data, "bWFya3Vw".data⟩ : FileData).asText).body.map
          (processNode [(("ch1.xhtml".data : JSStr), ⟨"markup".data, "bWFya3Vw".data⟩)] []
            (([⟨"c1".data, "ch1.xhtml".data, "application/xhtml+xml".data,
               false, false, true, 0⟩].get ⟨0, by decide⟩ : SpineItem)).href)
      ∧ ch.content.get? 1 = some (.img ("img/pic.png".data)) :=
  claimC9 _ _ _ _ _ _ 0 (by decide) (⟨"markup".data, "bWFya3Vw".data⟩ : FileData)
    (by decide) 1 ("img/pic.png".data) rfl (by decide) (by decide) (by decide)

theorem goToPage_self (s : PagerState) (n : Int)
    (h : (max 1 (min n (s.pages.length : Int))).toNat = s.currentPage) :
    goToPage s n = s := by
  simp only [goToPage]
  rw [if_neg (by omega)]

theorem goToPage_empty (s : PagerState) (n : Int) (h : s.pages = []) :
    goToPage s n = s := by
  simp only [goToPage]
  split
  · rw [h]
    rfl
  · rfl

theorem goToPage_move (s : PagerState) (n : Int)
    (hne : (max 1 (min n (s.pages.length : Int))).toNat ≠ s.currentPage)
    (hpages : s.pages ≠ []) :
    ∃ pd, s.pages.get? ((max 1 (min n (s.pages.length : Int))).toNat - 1) = some pd
      ∧ goToPage s n
          = { s with currentPage := (max 1 (min n (s.pages.length : Int))).toNat,
                     pageContent := some (mkPageView pd s.chapterData) } := by
  have hlen : s.pages.length ≠ 0 := by
    intro h0
    exact hpages (List.length_eq_zero.mp h0)
  have hbound : (max 1 (min n (s.pages.length : Int))).toNat - 1 < s.pages.length := by
    omega
  refine ⟨s.pages.get ⟨_, hbound⟩, List.get?_eq_get hbound, ?_⟩
  simp only [goToPage]
  rw [if_pos (by omega), List.get?_eq_get hbound]

theorem nextPage_eq_goToPage (s : PagerState)
    (h1 : 1 ≤ s.currentPage) (h2 : s.currentPage ≤ max 1 s.pages.length) :
    nextPage s = goToPage s ((s.currentPage : Int) + 1) := by
  by_cases hc : s.currentPage < s.pages.length
  · have ht : (max 1 (min ((s.currentPage : Int) + 1) (s.pages.length : Int))).toNat
        = s.currentPage + 1 := by omega
    obtain ⟨pd, hpd, heq⟩ := goToPage_move s ((s.currentPage : Int) + 1)
      (by omega) (by intro h0; rw [h0] at hc; simp at hc)
    rw [heq]
    unfold nextPage
    rw [if_pos hc]
    rw [ht] at hpd
    simp only [Nat.add_sub_cancel] at hpd ⊢
    rw [hpd, ht]
  · have ht : (max 1 (min ((s.currentPage : Int) + 1) (s.pages.length : Int))).toNat
        = s.currentPage := by omega
    rw [goToPage_self s _ ht]
    unfold nextPage
    rw [if_neg hc]

theorem prevPage_eq_goToPage (s : PagerState)
    (h1 : 1 ≤ s.currentPage) (h2 : s.currentPage ≤ max 1 s.pages.length) :
    prevPage s = goToPage s ((s.currentPage : Int) - 1) := by
  by_cases hc : 1 < s.currentPage
  · have ht : (max 1 (min ((s.currentPage : Int) - 1) (s.pages.length : Int))).toNat
        = s.currentPage - 1 := by omega
    obtain ⟨pd, hpd, heq⟩ := goToPage_move s ((s.currentPage : Int) - 1)
      (by omega) (by intro h0; rw [h0] at h2; simp at h2; omega)
    rw [heq]
    unfold prevPage
    rw [if_pos hc]
    rw [ht] at hpd
    rw [hpd, ht]
  · have ht : (max 1 (min ((s.currentPage : Int) - 1) (s.pages.length : Int))).toNat
        = s.currentPage := by omega
    rw [goToPage_self s _ ht]
    unfold prevPage
    rw [if_neg hc]

/-- C7 counterexample: in the 0-based hook, `goToPage(5)` on a 3-page book
leaves the current page unchanged at 0 and reports failure, whereas the
claim's clamping policy (modelled by `hookGoToPageSpec`) would land on the
last page, index 2 — this hook rejects out-of-range requests instead of
clamping them. -/
theorem claimC7_cex :
    hookGoToPage 3 0 5 = (0, false)
    ∧ hookGoToPageSpec 3 0 5 = 2
    ∧ (0 : Nat) ≠ 2 :=
  ⟨by decide, by decide, by decide⟩

/-- C7 (amended): in the binary-search hook, `goToPage(n)` clamps `n` into
`[1, totalPages]` and is a no-op when the clamped target equals the current
page or when no pages exist, and `nextPage`/`prevPage` coincide with
`goToPage(current ± 1)` on every reachable state (`1 ≤ current ≤ max 1
totalPages`); in the character-estimate hook, pages are 0-based and
`goToPage(n)` accepts an in-range `n` but rejects an out-of-range `n`
without clamping, leaving the current page unchanged. -/
theorem claimC7 :
    (∀ (s : PagerState) (n : Int),
       ((1 : Int) ≤ max 1 (min n (s.pages.length : Int))
          ∧ max 1 (min n (s.pages.length : Int)) ≤ max 1 (s.pages.length : Int))
       ∧ ((max 1 (min n (s.pages.length : Int))).toNat = s.currentPage → goToPage s n = s)
       ∧ (s.pages = [] → goToPage s n = s)
       ∧ ((max 1 (min n (s.pages.length : Int))).toNat ≠ s.currentPage → s.pages ≠ [] →
            ∃ pd, s.pages.get? ((max 1 (min n (s.pages.length : Int))).toNat - 1) = some pd
              ∧ goToPage s n
                  = { s with currentPage := (max 1 (min n (s.pages.length : Int))).toNat,
                             pageContent := some (mkPageView pd s.chapterData) }))
    ∧ (∀ s : PagerState, 1 ≤ s.currentPage → s.currentPage ≤ max 1 s.pages.length →
         nextPage s = goToPage s ((s.currentPage : Int) + 1)
         ∧ prevPage s = goToPage s ((s.currentPage : Int) - 1))
    ∧ (∀ (total cur : Nat) (n : Int),
         (0 ≤ n → n < (total : Int) → hookGoToPage total cur n = (n.toNat, true))
         ∧ ((n < 0 ∨ (total : Int) ≤ n) → hookGoToPage total cur n = (cur, false))) := by
  refine ⟨fun s n => ⟨⟨by omega, by omega⟩, goToPage_self s n, goToPage_empty s n,
    goToPage_move s n⟩,
    fun s h1 h2 => ⟨nextPage_eq_goToPage s h1 h2, prevPage_eq_goToPage s h1 h2⟩,
    fun total cur n => ⟨fun hn1 hn2 => ?_, fun h => ?_⟩⟩
  · unfold hookGoToPage
    rw [if_pos ⟨hn1, hn2⟩]
  · unfold hookGoToPage
    rw [if_neg (by omega)]

/-- Witness for C7: on a concrete two-page state, `nextPage` agrees with
`goToPage(current + 1)`. -/
theorem claimC7_witness :
    nextPage { currentPage := 1,
               pages := [⟨"<div>a</div>".data, 0, "T".data, []⟩,
                         ⟨"<div>b</div>".data, 0, "T".data, []⟩],
               pageContent := none, chapterData := none }
      = goToPage { currentPage := 1,
                   pages := [⟨"<div>a</div>".data, 0, "T".data, []⟩,
                             ⟨"<div>b</div>".data, 0, "T".data, []⟩],
                   pageContent := none, chapterData := none } ((1 : Int) + 1) :=
  (claimC7.2.1 _ (by decide) (by decide)).1

theorem replaceFirst_self (s pat : JSStr) : replaceFirst s pat pat = s := by
  induction s with
  | nil =>
    unfold replaceFirst
    split
    · rename_i h
      have hp : pat = [] := List.prefix_nil.mp (List.isPrefixOf_iff_prefix.mp h)
      simp [hp]
    · rfl
  | cons c rest ih =>
    unfold replaceFirst
    split
    · rename_i h
      exact List.prefix_iff_eq_append.mp (List.isPrefixOf_iff_prefix.mp h)
    · show c :: replaceFirst rest pat pat = c :: rest
      rw [ih]

theorem foldl_urls_id (fontCache : List (JSStr × JSStr)) (basePath : JSStr)
    (l : List (JSStr × JSStr)) :
    ∀ acc : JSStr,
      (∀ wi ∈ l, ("data:".data).isPrefixOf wi.2 = false →
        lookupAssoc fontCache (resolvePath basePath wi.2) = none) →
      l.foldl (fun acc wi =>
        if ("data:".data).isPrefixOf wi.2 then acc
        else
          match lookupAssoc fontCache (resolvePath basePath wi.2) with
          | some dataUrl => replaceFirst acc wi.1 ("url('".data ++ dataUrl ++ "')".data)
          | none => acc) acc = acc := by
  induction l with
  | nil => intro acc _; rfl
  | cons wi rest ih =>
    intro acc h
    simp only [List.foldl_cons]
    have hstep : (if ("data:".data).isPrefixOf wi.2 then acc
        else
          match lookupAssoc fontCache (resolvePath basePath wi.2) with
          | some dataUrl => replaceFirst acc wi.1 ("url('".data ++ dataUrl ++ "')".data)
          | none => acc) = acc := by
      by_cases hd : ("data:".data).isPrefixOf wi.2
      · rw [if_pos hd]
      · rw [if_neg hd, h wi (List.mem_cons_self wi rest) (Bool.eq_false_iff.mpr hd)]
    rw [hstep]
    exact ih acc fun x hx => h x (List.mem_cons_of_mem _ hx)

theorem processFontFace_id (fontCache : List (JSStr × JSStr)) (basePath fontFace : JSStr)
    (h : ∀ wi ∈ scanUrls fontFace, ("data:".data).isPrefixOf wi.2 = false →
      lookupAssoc fontCache (resolvePath basePath wi.2) = none) :
    processFontFace fontCache basePath fontFace = fontFace := by
  unfold processFontFace
  exact foldl_urls_id fontCache basePath (scanUrls fontFace) fontFace h

theorem foldl_blocks_id (fontCache : List (JSStr × JSStr)) (basePath : JSStr)
    (blocks : List JSStr) :
    ∀ acc : JSStr,
      (∀ b ∈ blocks, processFontFace fontCache basePath b = b) →
      blocks.foldl (fun acc fontFace =>
        replaceFirst acc fontFace (processFontFace fontCache basePath fontFace)) acc = acc := by
  induction blocks with
  | nil => intro acc _; rfl
  | cons b rest ih =>
    intro acc h
    simp only [List.foldl_cons]
    rw [h b (List.mem_cons_self b rest), replaceFirst_self]
    exact ih acc fun x hx => h x (List.mem_cons_of_mem _ hx)

theorem replaceFirst_of_first (pre B post repl : JSStr)
    (h : ∀ i, i < pre.length → B.isPrefixOf ((pre ++ B ++ post).drop i) = false) :
    replaceFirst (pre ++ B ++ post) B repl = pre ++ repl ++ post := by
  induction pre with
  | nil =>
    simp only [List.nil_append]
    unfold replaceFirst
    rw [if_pos (List.isPrefixOf_iff_prefix.mpr (List.prefix_append B post))]
    rw [List.drop_left]
  | cons c pre ih =>
    have h0 := h 0 (by simp)
    simp only [List.drop_zero, List.cons_append] at h0
    show replaceFirst (c :: (pre ++ B ++ post)) B repl = c :: (pre ++ repl ++ post)
    have h0' : ¬ B <+: c :: (pre ++ (B ++ post)) := by
      intro hc
      have hb := List.isPrefixOf_iff_prefix.mpr hc
      rw [← List.append_assoc] at hb
      rw [h0] at hb
      exact Bool.false_ne_true hb
    unfold replaceFirst
    rw [if_neg (by simpa using h0')]
    show c :: replaceFirst (pre ++ B ++ post) B repl = c :: (pre ++ repl ++ post)
    rw [ih fun i hi => by
      have := h (i + 1) (by simpa using Nat.succ_lt_succ hi)
      simpa using this]

/-- Whether an occurrence of `pat` in `s` starts at one of the first `n`
positions. -/
def occursBefore (pat s : JSStr) (n : Nat) : Bool :=
  (List.range n).any fun j => pat.isPrefixOf (s.drop j)

/-- The replacement a matched `url(...)` contributes inside a `@font-face`
block: an already-`data:` url and a url whose resolved path misses the font
cache are substituted by themselves; a cached url by `url('<dataUrl>')`. -/
def substUrl (fontCache : List (JSStr × JSStr)) (basePath whole inner : JSStr) : JSStr :=
  if ("data:".data).isPrefixOf inner then whole
  else
    match lookupAssoc fontCache (resolvePath basePath inner) with
    | some dataUrl => "url('".data ++ dataUrl ++ "')".data
    | none => whole

/-- Reassembly of a block from its url-match segments: each segment is a
(whole match, captured group) pair followed by the text up to the next
match. -/
def joinUrlSegs : List ((JSStr × JSStr) × JSStr) → JSStr
  | [] => []
  | ((whole, _), t) :: rest => whole ++ t ++ joinUrlSegs rest

/-- Reassembly with every matched url replaced by its `substUrl`. -/
def joinUrlSegsSubst (fontCache : List (JSStr × JSStr)) (basePath : JSStr) :
    List ((JSStr × JSStr) × JSStr) → JSStr
  | [] => []
  | ((whole, inner), t) :: rest =>
      substUrl fontCache basePath whole inner ++ t
        ++ joinUrlSegsSubst fontCache basePath rest

/-- No-aliasing condition on the url replacements of one block: whenever a
match is actually rewritten, its text must not also occur earlier in the
accumulator at that step — otherwise the first-occurrence `String.replace`
lands on the earlier occurrence instead (see the counterexample). -/
def noAliasUrls (fontCache : List (JSStr × JSStr)) (basePath : JSStr) :
    JSStr → List ((JSStr × JSStr) × JSStr) → Bool
  | _, [] => true
  | done, ((whole, inner), t) :: rest =>
    (decide (substUrl fontCache basePath whole inner = whole)
      || !occursBefore whole (done ++ whole ++ t ++ joinUrlSegs rest) done.length)
    && noAliasUrls fontCache basePath
        (done ++ substUrl fontCache basePath whole inner ++ t) rest

/-- Reassembly of a stylesheet from its `@font-face`-match segments. -/
def joinBlockSegs : List (JSStr × JSStr) → JSStr
  | [] => []
  | (b, t) :: rest => b ++ t ++ joinBlockSegs rest

/-- Reassembly with every matched block replaced by its processed form. -/
def joinBlockSegsSubst (fontCache : List (JSStr × JSStr)) (basePath : JSStr) :
    List (JSStr × JSStr) → JSStr
  | [] => []
  | (b, t) :: rest =>
      processFontFace fontCache basePath b ++ t
        ++ joinBlockSegsSubst fontCache basePath rest

/-- No-aliasing condition on the block substitutions of the outer fold. -/
def noAliasBlocks (fontCache : List (JSStr × JSStr)) (basePath : JSStr) :
    JSStr → List (JSStr × JSStr) → Bool
  | _, [] => true
  | done, (b, t) :: rest =>
    (decide (processFontFace fontCache basePath b = b)
      || !occursBefore b (done ++ b ++ t ++ joinBlockSegs rest) done.length)
    && noAliasBlocks fontCache basePath
        (done ++ processFontFace fontCache basePath b ++ t) rest

theorem occursBefore_eq_false (pat s : JSStr) (n : Nat)
    (h : occursBefore pat s n = false) (j : Nat) (hj : j < n) :
    pat.isPrefixOf (s.drop j) = false := by
  cases hb : pat.isPrefixOf (s.drop j) with
  | false => rfl
  | true =>
    exfalso
    have ht : occursBefore pat s n = true := by
      unfold occursBefore
      rw [List.any_eq_true]
      exact ⟨j, List.mem_range.mpr hj, hb⟩
    rw [ht] at h
    simp at h

theorem foldUrls_frame (fontCache : List (JSStr × JSStr)) (basePath : JSStr)
    (segs : List ((JSStr × JSStr) × JSStr)) :
    ∀ done : JSStr, noAliasUrls fontCache basePath done segs = true →
      (segs.map (·.1)).foldl (fun acc wi =>
          if ("data:".data).isPrefixOf wi.2 then acc
          else
            match lookupAssoc fontCache (resolvePath basePath wi.2) with
            | some dataUrl => replaceFirst acc wi.1 ("url('".data ++ dataUrl ++ "')".data)
            | none => acc)
        (done ++ joinUrlSegs segs)
      = done ++ joinUrlSegsSubst fontCache basePath segs := by
  induction segs with
  | nil => intro done _; simp [joinUrlSegs, joinUrlSegsSubst]
  | cons seg rest ih =>
    obtain ⟨⟨whole, inner⟩, t⟩ := seg
    intro done h
    simp only [noAliasUrls, Bool.and_eq_true, Bool.or_eq_true] at h
    obtain ⟨h1, h2⟩ := h
    simp only [List.map_cons, List.foldl_cons, joinUrlSegs, joinUrlSegsSubst]
    by_cases hd : ("data:".data).isPrefixOf inner
    · have hs : substUrl fontCache basePath whole inner = whole := by
        unfold substUrl
        rw [if_pos hd]
      rw [hs] at h2 ⊢
      rw [if_pos hd]
      have key := ih (done ++ whole ++ t) h2
      simpa [List.append_assoc] using key
    · rw [if_neg hd]
      cases hl : lookupAssoc fontCache (resolvePath basePath inner) with
      | none =>
        have hs : substUrl fontCache basePath whole inner = whole := by
          unfold substUrl
          rw [if_neg hd, hl]
        rw [hs] at h2 ⊢
        simp only [hl]
        have key := ih (done ++ whole ++ t) h2
        simpa [List.append_assoc] using key
      | some dataUrl =>
        have hs : substUrl fontCache basePath whole inner
            = "url('".data ++ dataUrl ++ "')".data := by
          unfold substUrl
          rw [if_neg hd, hl]
        simp only [hl]
        by_cases hw : ("url('".data ++ dataUrl ++ "')".data) = whole
        · rw [hw, replaceFirst_self]
          rw [hs, hw] at h2
          rw [hs, hw]
          have key := ih (done ++ whole ++ t) h2
          simpa [List.append_assoc] using key
        · have hocc : occursBefore whole (done ++ whole ++ t ++ joinUrlSegs rest)
              done.length = false := by
            rcases h1 with h1 | h1
            · exfalso
              apply hw
              have := of_decide_eq_true h1
              rw [hs] at this
              exact this
            · simpa using h1
          have hrepl := replaceFirst_of_first done whole (t ++ joinUrlSegs rest)
            ("url('".data ++ dataUrl ++ "')".data)
            (fun i hi => by
              have := occursBefore_eq_false whole _ done.length hocc i hi
              simpa [List.append_assoc] using this)
          rw [show done ++ (whole ++ t ++ joinUrlSegs rest)
              = done ++ whole ++ (t ++ joinUrlSegs rest) by simp [List.append_assoc]]
          rw [hrepl]
          rw [hs] at h2 ⊢
          have key := ih (done ++ ("url('".data ++ dataUrl ++ "')".data) ++ t) h2
          simpa [List.append_assoc] using key

theorem foldBlocks_frame (fontCache : List (JSStr × JSStr)) (basePath : JSStr)
    (segs : List (JSStr × JSStr)) :
    ∀ done : JSStr, noAliasBlocks fontCache basePath done segs = true →
      (segs.map (·.1)).foldl (fun acc fontFace =>
          replaceFirst acc fontFace (processFontFace fontCache basePath fontFace))
        (done ++ joinBlockSegs segs)
      = done ++ joinBlockSegsSubst fontCache basePath segs := by
  induction segs with
  | nil => intro done _; simp [joinBlockSegs, joinBlockSegsSubst]
  | cons seg rest ih =>
    obtain ⟨b, t⟩ := seg
    intro done h
    simp only [noAliasBlocks, Bool.and_eq_true, Bool.or_eq_true] at h
    obtain ⟨h1, h2⟩ := h
    simp only [List.map_cons, List.foldl_cons, joinBlockSegs, joinBlockSegsSubst]
    by_cases hb : processFontFace fontCache basePath b = b
    · rw [hb, replaceFirst_self]
      rw [hb] at h2
      have key := ih (done ++ b ++ t) h2
      simpa [List.append_assoc] using key
    · have hocc : occursBefore b (done ++ b ++ t ++ joinBlockSegs rest)
          done.length = false := by
        rcases h1 with h1 | h1
        · exact absurd (of_decide_eq_true h1) hb
        · simpa using h1
      have hrepl := replaceFirst_of_first done b (t ++ joinBlockSegs rest)
        (processFontFace fontCache basePath b)
        (fun i hi => by
          have := occursBefore_eq_false b _ done.length hocc i hi
          simpa [List.append_assoc] using this)
      rw [show done ++ (b ++ t ++ joinBlockSegs rest)
          = done ++ b ++ (t ++ joinBlockSegs rest) by simp [List.append_assoc]]
      rw [hrepl]
      have key := ih (done ++ processFontFace fontCache basePath b ++ t) h2
      simpa [List.append_assoc] using key

theorem stripQuote_append (cs : List Char) :
    (stripQuote cs).1 ++ (stripQuote cs).2 = cs := by
  match cs with
  | [] => rfl
  | c :: t =>
    simp only [stripQuote]
    split <;> simp

theorem matchUrlAt_append (cs m inner after : List Char)
    (h : matchUrlAt cs = some (m, inner, after)) : cs = m ++ after := by
  unfold matchUrlAt at h
  split at h
  · rename_i hpre
    dsimp only at h
    split at h
    · exact absurd h (by simp)
    · rename_i hinner
      split at h
      · rename_i r4 heq4
        simp only [Option.some.injEq, Prod.mk.injEq] at h
        obtain ⟨hm, _, hafter⟩ := h
        have elen : ("url(".data).length = 4 := by decide
        have e0 : ("url(".data) ++ cs.drop 4 = cs := by
          have := List.prefix_iff_eq_append.mp (List.isPrefixOf_iff_prefix.mp hpre)
          rwa [elen] at this
        have e1 : (stripQuote (cs.drop 4)).1 ++ (stripQuote (cs.drop 4)).2 = cs.drop 4 :=
          stripQuote_append _
        have e2 : ((stripQuote (cs.drop 4)).2.takeWhile
              (fun c => ¬(c = '\'' ∨ c = '"' ∨ c = ')')))
            ++ (stripQuote (cs.drop 4)).2.drop
              ((stripQuote (cs.drop 4)).2.takeWhile
                (fun c => ¬(c = '\'' ∨ c = '"' ∨ c = ')'))).length
            = (stripQuote (cs.drop 4)).2 :=
          List.prefix_iff_eq_append.mp (List.takeWhile_prefix _)
        have e3 : (stripQuote ((stripQuote (cs.drop 4)).2.drop
              ((stripQuote (cs.drop 4)).2.takeWhile
                (fun c => ¬(c = '\'' ∨ c = '"' ∨ c = ')'))).length)).1
            ++ (stripQuote ((stripQuote (cs.drop 4)).2.drop
              ((stripQuote (cs.drop 4)).2.takeWhile
                (fun c => ¬(c = '\'' ∨ c = '"' ∨ c = ')'))).length)).2
            = (stripQuote (cs.drop 4)).2.drop
              ((stripQuote (cs.drop 4)).2.takeWhile
                (fun c => ¬(c = '\'' ∨ c = '"' ∨ c = ')'))).length :=
          stripQuote_append _
        rw [← hm, ← hafter]
        simp only [List.append_assoc, List.singleton_append]
        rw [← heq4, e3, e2, e1]
        exact e0.symm
      · exact absurd h (by simp)
  · exact absurd h (by simp)

theorem matchFontFaceAt_append (cs m after : List Char)
    (h : matchFontFaceAt cs = some (m, after)) : cs = m ++ after := by
  unfold matchFontFaceAt at h
  split at h
  · rename_i hpre
    dsimp only at h
    split at h
    · rename_i rest2 heq
      split at h
      · exact absurd h (by simp)
      · split at h
        · rename_i rest3 heq3
          simp only [Option.some.injEq, Prod.mk.injEq] at h
          obtain ⟨hm, hafter⟩ := h
          have elen : ("@font-face".data).length = 10 := by decide
          have e0 : ("@font-face".data) ++ cs.drop 10 = cs := by
            have := List.prefix_iff_eq_append.mp (List.isPrefixOf_iff_prefix.mp hpre)
            rwa [elen] at this
          have e1 : (cs.drop 10).takeWhile (isJsSpace ·)
              ++ (cs.drop 10).drop ((cs.drop 10).takeWhile (isJsSpace ·)).length
              = cs.drop 10 :=
            List.prefix_iff_eq_append.mp (List.takeWhile_prefix _)
          have e2 : rest2.takeWhile (· ≠ '}')
              ++ rest2.drop (rest2.takeWhile (· ≠ '}')).length = rest2 :=
            List.prefix_iff_eq_append.mp (List.takeWhile_prefix _)
          rw [← hm, ← hafter]
          simp only [List.append_assoc, List.singleton_append, List.cons_append,
            List.nil_append]
          rw [← heq3, e2, ← heq, e1]
          exact e0.symm
        · exact absurd h (by simp)
    · exact absurd h (by simp)
  · exact absurd h (by simp)

theorem scanUrlsGo_decomposes (fuel : Nat) :
    ∀ cs : List Char, ∃ t0 segs, cs = t0 ++ joinUrlSegs segs
      ∧ scanUrlsGo fuel cs = segs.map (·.1) := by
  induction fuel with
  | zero => exact fun cs => ⟨cs, [], by simp [joinUrlSegs], rfl⟩
  | succ fuel ih =>
    intro cs
    match cs with
    | [] => exact ⟨[], [], by simp [joinUrlSegs], rfl⟩
    | c :: rest =>
      cases hm : matchUrlAt (c :: rest) with
      | some val =>
        obtain ⟨m, inner, after⟩ := val
        obtain ⟨t0', segs', hdec, hscan⟩ := ih after
        refine ⟨[], ((m, inner), t0') :: segs', ?_, ?_⟩
        · have := matchUrlAt_append (c :: rest) m inner after hm
          rw [this, hdec]
          simp [joinUrlSegs, List.append_assoc]
        · simp [scanUrlsGo, hm, hscan]
      | none =>
        obtain ⟨t0', segs', hdec, hscan⟩ := ih rest
        refine ⟨c :: t0', segs', ?_, ?_⟩
        · rw [hdec]
          rfl
        · simp [scanUrlsGo, hm, hscan]

theorem scanFontFacesGo_decomposes (fuel : Nat) :
    ∀ cs : List Char, ∃ s0 bsegs, cs = s0 ++ joinBlockSegs bsegs
      ∧ scanFontFacesGo fuel cs = bsegs.map (·.1) := by
  induction fuel with
  | zero => exact fun cs => ⟨cs, [], by simp [joinBlockSegs], rfl⟩
  | succ fuel ih =>
    intro cs
    match cs with
    | [] => exact ⟨[], [], by simp [joinBlockSegs], rfl⟩
    | c :: rest =>
      cases hm : matchFontFaceAt (c :: rest) with
      | some val =>
        obtain ⟨m, after⟩ := val
        obtain ⟨s0', bsegs', hdec, hscan⟩ := ih after
        refine ⟨[], (m, s0') :: bsegs', ?_, ?_⟩
        · have := matchFontFaceAt_append (c :: rest) m after hm
          rw [this, hdec]
          simp [joinBlockSegs, List.append_assoc]
        · simp [scanFontFacesGo, hm, hscan]
      | none =>
        obtain ⟨s0', bsegs', hdec, hscan⟩ := ih rest
        refine ⟨c :: s0', bsegs', ?_, ?_⟩
        · rw [hdec]
          rfl
        · simp [scanFontFacesGo, hm, hscan]

set_option maxRecDepth 8192 in
/-- C10 counterexample: the claim as stated is false — a `url()` already
holding a `data:` URI is NOT always left character-for-character unchanged.
In this block the `data:` url's text contains the text of the later cached
match `url(f.ttf)`, and the first-occurrence `String.replace` lands inside
the `data:` url, corrupting it, while the actual cached occurrence is left
as-is: the `data:` url's text no longer occurs anywhere in the output. -/
theorem claimC10_cex :
    (("url(data:a,url(f.ttf)".data : JSStr) <:+:
        ("@font-face\x7bsrc:url(data:a,url(f.ttf));x:url(f.ttf)\x7d".data))
    ∧ (scanUrls ("@font-face\x7bsrc:url(data:a,url(f.ttf));x:url(f.ttf)\x7d".data)).map (·.2)
        = [("data:a,url(f.ttf".data), ("f.ttf".data)]
    ∧ ("data:".data).isPrefixOf ("data:a,url(f.ttf".data) = true
    ∧ processCSSWithFonts ("@font-face\x7bsrc:url(data:a,url(f.ttf));x:url(f.ttf)\x7d".data)
        ("main.css".data) [("f.ttf".data, "data:F".data)]
      = ("@font-face\x7bsrc:url(data:a,url('data:F'));x:url(f.ttf)\x7d".data)
    ∧ ¬ (("url(data:a,url(f.ttf)".data : JSStr) <:+:
        ("@font-face\x7bsrc:url(data:a,url('data:F'));x:url(f.ttf)\x7d".data)) := by
  refine ⟨by decide, by decide, by decide, by decide, by decide⟩

/-- C10 (amended): `processCSSWithFonts` rewrites only `url(...)` matches
inside regex-matched `@font-face` blocks whose reference is not already a
`data:` URI and whose resolved path is in the font cache, each by a
first-occurrence textual replacement; provided every rewritten text's first
occurrence in the accumulated CSS is at its own match position (no textual
aliasing — the condition the counterexample violates), everything else is
returned character-for-character: (a) when no url anywhere resolves to a
cached font the whole CSS is returned unchanged, for arbitrary CSS with no
side condition; (b) across arbitrarily many blocks, the text between and
around blocks — hence every `url()` outside a `@font-face` block — is
preserved verbatim; (c) inside a block with any mix of urls, each match is
replaced by its `substUrl` and the surrounding text preserved; (d)/(e)
`substUrl` is the identity on `data:` urls and on cache misses, so those are
preserved character-for-character; (f)/(g) every CSS text and every block
admits the segment decomposition used in (b) and (c), so the only genuine
restriction is the no-aliasing proviso. -/
theorem claimC10 :
    (∀ (css basePath : JSStr) (fontCache : List (JSStr × JSStr)),
       (∀ b ∈ scanFontFaces css, ∀ wi ∈ scanUrls b,
          ("data:".data).isPrefixOf wi.2 = false →
            lookupAssoc fontCache (resolvePath basePath wi.2) = none) →
       processCSSWithFonts css basePath fontCache = css)
    ∧ (∀ (basePath : JSStr) (fontCache : List (JSStr × JSStr))
         (s0 : JSStr) (bsegs : List (JSStr × JSStr)),
         scanFontFaces (s0 ++ joinBlockSegs bsegs) = bsegs.map (·.1) →
         noAliasBlocks fontCache basePath s0 bsegs = true →
         processCSSWithFonts (s0 ++ joinBlockSegs bsegs) basePath fontCache
           = s0 ++ joinBlockSegsSubst fontCache basePath bsegs)
    ∧ (∀ (basePath : JSStr) (fontCache : List (JSStr × JSStr))
         (t0 : JSStr) (usegs : List ((JSStr × JSStr) × JSStr)),
         scanUrls (t0 ++ joinUrlSegs usegs) = usegs.map (·.1) →
         noAliasUrls fontCache basePath t0 usegs = true →
         processFontFace fontCache basePath (t0 ++ joinUrlSegs usegs)
           = t0 ++ joinUrlSegsSubst fontCache basePath usegs)
    ∧ (∀ (basePath whole inner : JSStr) (fontCache : List (JSStr × JSStr)),
         ("data:".data).isPrefixOf inner = true →
           substUrl fontCache basePath whole inner = whole)
    ∧ (∀ (basePath whole inner : JSStr) (fontCache : List (JSStr × JSStr)),
         lookupAssoc fontCache (resolvePath basePath inner) = none →
           substUrl fontCache basePath whole inner = whole)
    ∧ (∀ css : JSStr, ∃ s0 bsegs, css = s0 ++ joinBlockSegs bsegs
         ∧ scanFontFaces css = bsegs.map (·.1))
    ∧ (∀ b : JSStr, ∃ t0 usegs, b = t0 ++ joinUrlSegs usegs
         ∧ scanUrls b = usegs.map (·.1)) := by
  refine ⟨?_, ?_, ?_, ?_, ?_, ?_, ?_⟩
  · intro css basePath fontCache h
    unfold processCSSWithFonts
    exact foldl_blocks_id fontCache basePath (scanFontFaces css) css
      fun b hb => processFontFace_id fontCache basePath b (h b hb)
  · intro basePath fontCache s0 bsegs hscan halias
    unfold processCSSWithFonts
    rw [hscan]
    exact foldBlocks_frame fontCache basePath bsegs s0 halias
  · intro basePath fontCache t0 usegs hscan halias
    unfold processFontFace
    rw [hscan]
    exact foldUrls_frame fontCache basePath usegs t0 halias
  · intro basePath whole inner fontCache h
    unfold substUrl
    rw [if_pos h]
  · intro basePath whole inner fontCache h
    by_cases hd : ("data:".data).isPrefixOf inner
    · unfold substUrl
      rw [if_pos hd]
    · unfold substUrl
      rw [if_neg hd, h]
  · exact fun css => scanFontFacesGo_decomposes css.length css
  · exact fun b => scanUrlsGo_decomposes b.length b

set_option maxRecDepth 8192 in
/-- Witness for C10: a stylesheet with two `@font-face` blocks around plain
rules, the first block mixing a `data:` url, a cached url and an uncached
url — the outer frame preserves the three surrounding text pieces (with
their `url(out.png)` references) and the inner frame preserves the `data:`
and uncached urls while substituting the cached one. -/
theorem claimC10_witness :
    processCSSWithFonts
        ((".p \x7bbackground:url(out.png)\x7d ".data)
          ++ joinBlockSegs
            [(("@font-face\x7bsrc:url(data:app,AA);src:url(../fonts/a.ttf);src:url(x.woff)\x7d".data),
              (" .q \x7bcolor:red\x7d ".data)),
             (("@font-face\x7bsrc:url(../fonts/a.ttf)\x7d".data),
              (" .r \x7bbackground:url(out.png)\x7d".data))])
        ("css/main.css".data) [("fonts/a.ttf".data, "data:F".data)]
      = (".p \x7bbackground:url(out.png)\x7d ".data)
          ++ joinBlockSegsSubst [("fonts/a.ttf".data, "data:F".data)] ("css/main.css".data)
            [(("@font-face\x7bsrc:url(data:app,AA);src:url(../fonts/a.ttf);src:url(x.woff)\x7d".data),
              (" .q \x7bcolor:red\x7d ".data)),
             (("@font-face\x7bsrc:url(../fonts/a.ttf)\x7d".data),
              (" .r \x7bbackground:url(out.png)\x7d".data))]
    ∧ processFontFace [("fonts/a.ttf".data, "data:F".data)] ("css/main.css".data)
        (("@font-face\x7bsrc:".data)
          ++ joinUrlSegs
            [(("url(data:app,AA)".data, "data:app,AA".data), (";src:".data)),
             (("url(../fonts/a.ttf)".data, "../fonts/a.ttf".data), (";src:".data)),
             (("url(x.woff)".data, "x.woff".data), ("\x7d".data))])
      = ("@font-face\x7bsrc:".data)
          ++ joinUrlSegsSubst [("fonts/a.ttf".data, "data:F".data)] ("css/main.css".data)
            [(("url(data:app,AA)".data, "data:app,AA".data), (";src:".data)),
             (("url(../fonts/a.ttf)".data, "../fonts/a.ttf".data), (";src:".data)),
             (("url(x.woff)".data, "x.woff".data), ("\x7d".data))] :=
  ⟨claimC10.2.1 _ _ _ _ (by decide) (by decide),
   claimC10.2.2.1 _ _ _ _ (by decide) (by decide)⟩

end EReader
